import Mathlib

/-!
Verification of the assistant-toolkit-api permission engine, hybrid retriever,
ingestion pipeline and management services.  Every definition is a shallow
embedding of the corresponding Python function in `src/app`; Python sets are
modelled as `Finset String`, Python `None` as `Option.none`, raised exceptions
as `Except PyError`, and the MongoDB collections as Lean lists of records.
-/

set_option autoImplicit false

namespace AssistantToolkit

/-- Exceptions a modelled Python function can raise: `TypeError` (e.g. `x in None`),
`ValueError`, or a FastAPI `HTTPException` with its status code. -/
inductive PyError where
  | typeError
  | valueError
  | http (status : Nat)
deriving DecidableEq

/-! ## Permission engine (`validation_management_service.py`, `file_management_service.py`) -/

/-- `ValidationManagementService.adjust_file_on_agent_permissions`
(`validation_management_service.py` lines 136-157).  Returns `(applied_ids, excluded_ids)`.
Rule 1 (inherit): requested list `None`/empty returns the agent list unchanged.
Rule 2: public agent passes the request through, restricted agent intersects;
no owner id is ever added (the function does not even receive one). -/
def adjust_file_on_agent_permissions (agent_user_ids : List String)
    (file_user_ids : Option (List String)) : Finset String × Finset String :=
  match file_user_ids with
  | none => (agent_user_ids.toFinset, ∅)
  | some [] => (agent_user_ids.toFinset, ∅)
  | some l =>
    let agent_permissions := agent_user_ids.toFinset
    let file_request_permissions := l.toFinset
    if agent_permissions = ∅ then
      (file_request_permissions, ∅)
    else
      (agent_permissions ∩ file_request_permissions,
       file_request_permissions \ agent_permissions)

/-- `FileManagementService.calculate_file_permissions`
(`file_management_service.py` lines 338-370).  Same rules as
`adjust_file_on_agent_permissions`, except that in Rule 2 (and only there)
`applied_ids.add(owner_user_id)` is executed before returning; the Rule 1
early return does not add the owner. -/
def calculate_file_permissions (agent_user_ids : List String)
    (file_user_ids : Option (List String)) (owner_user_id : String) :
    Finset String × Finset String :=
  match file_user_ids with
  | none => (agent_user_ids.toFinset, ∅)
  | some [] => (agent_user_ids.toFinset, ∅)
  | some l =>
    let agent_permissions := agent_user_ids.toFinset
    let file_request_permissions := l.toFinset
    if agent_permissions = ∅ then
      (insert owner_user_id file_request_permissions, ∅)
    else
      (insert owner_user_id (agent_permissions ∩ file_request_permissions),
       file_request_permissions \ agent_permissions)

/-- `ValidationManagementService.adjust_file_on_thread_permissions`
(`validation_management_service.py` lines 159-169):
`applied_ids = [thread_owner_user_id]`,
`excluded_ids = list(set(file_user_ids or []) - {thread_owner_user_id})`. -/
def adjust_file_on_thread_permissions (thread_owner_user_id : String)
    (file_user_ids : Option (List String)) : List String × Finset String :=
  ([thread_owner_user_id],
   (file_user_ids.getD []).toFinset \ {thread_owner_user_id})

/-! ## Agent management (`agent_management_service.py`) -/

/-- A document of the agent collection.  `user_ids` is `none` when the stored
field is Python `None` (absent access list). -/
structure AgentRec where
  _id : String
  name : String
  owner_user_id : String
  user_ids : Option (List String)
deriving DecidableEq

/-- The agent record as returned by the service after
`agent["agent_id"] = agent.pop("_id")`. -/
structure AgentView where
  agent_id : String
  name : String
  owner_user_id : String
  user_ids : Option (List String)
deriving DecidableEq

/-- `AgentManagementService.create_agent` (`agent_management_service.py` lines 30-53).
The fresh `agt_<uuid4>` id is passed in as `fresh_id`.  `user_ids` covers the
Python default `[]` (as `some []`) and an explicit `None` (as `none`); both are
falsy, so `final_user_ids` stays `None` for them.  `list(set(...))` is modelled
by `List.eraseDups` (membership is all later code inspects). -/
def create_agent (agents : List AgentRec) (fresh_id name owner_user_id : String)
    (user_ids : Option (List String)) : Except PyError (List AgentRec × AgentRec) :=
  if (agents.find? (fun a => a.name = name ∧ a.owner_user_id = owner_user_id)).isSome then
    .error .valueError
  else
    let final_user_ids : Option (List String) :=
      match user_ids with
      | none => none
      | some [] => none
      | some l => some ((l ++ [owner_user_id]).eraseDups)
    let new_agent : AgentRec :=
      { _id := fresh_id, name := name, owner_user_id := owner_user_id,
        user_ids := final_user_ids }
    .ok (agents ++ [new_agent], new_agent)

/-- `AgentManagementService.has_access_to_agent` (`agent_management_service.py`
lines 99-109).  Evaluates `user_id in agent.get("user_ids") or
agent.get("user_ids") == []` left to right: when the stored `user_ids` is
`None`, the `in` test raises `TypeError` before the `== []` comparison runs. -/
def has_access_to_agent (agents : List AgentRec) (agent_id user_id : String) :
    Except PyError Bool :=
  match agents.find? (fun a => a._id = agent_id) with
  | none => .ok false
  | some a =>
    match a.user_ids with
    | none => .error .typeError
    | some ids => .ok (ids.contains user_id || ids.isEmpty)

/-- `AgentManagementService.is_owner_of_agent` (`agent_management_service.py`
lines 111-118): `False` both when the agent does not exist and when the owner
does not match. -/
def is_owner_of_agent (agents : List AgentRec) (agent_id owner_user_id : String) : Bool :=
  match agents.find? (fun a => a._id = agent_id) with
  | none => false
  | some a => a.owner_user_id = owner_user_id

/-- `AgentManagementService.get_agent_by_id` (`agent_management_service.py`
lines 78-82).  `find_one` may return `None`, but `agent["agent_id"] =
agent.pop("_id")` is applied unconditionally, raising `TypeError` when the
lookup found nothing; a `None` success is impossible. -/
def get_agent_by_id (agents : List AgentRec) (agent_id : String) :
    Except PyError (Option AgentView) :=
  match agents.find? (fun a => a._id = agent_id) with
  | none => .error .typeError
  | some a => .ok (some { agent_id := a._id, name := a.name,
                          owner_user_id := a.owner_user_id, user_ids := a.user_ids })

/-! ## Thread management (`thread_management_service.py`) -/

/-- A document of the thread collection. -/
structure ThreadRec where
  _id : String
  name : String
  owner_user_id : String
  agent_id : String
deriving DecidableEq

/-- The thread record after `thread["thread_id"] = thread.pop("_id")`. -/
structure ThreadView where
  thread_id : String
  name : String
  owner_user_id : String
  agent_id : String
deriving DecidableEq

/-- `ThreadManagementService.get_thread_by_id` (`thread_management_service.py`
lines 90-94); same unconditional `pop("_id")` pattern as `get_agent_by_id`. -/
def get_thread_by_id (threads : List ThreadRec) (thread_id : String) :
    Except PyError (Option ThreadView) :=
  match threads.find? (fun t => t._id = thread_id) with
  | none => .error .typeError
  | some t => .ok (some { thread_id := t._id, name := t.name,
                          owner_user_id := t.owner_user_id, agent_id := t.agent_id })

/-! ## Delete cascades and the delete endpoint
(`agent_management_service.py`, `thread_management_service.py`,
`api/v1/endpoints/agent_management.py`) -/

/-- A chunk document of the file collection: the metadata fields the delete
and listing paths filter on. -/
structure FileChunk where
  file_id : String
  agent_id : Option String
  thread_id : Option String
deriving DecidableEq

/-- A chunk document of the chat-history collection. -/
structure ChatChunk where
  thread_id : String
  turn_id : Nat
deriving DecidableEq

/-- The MongoDB database plus the Redis short-term store, as the services see
them: the agent, thread, file-chunk and chat-chunk collections and the set of
Redis keys holding buffered messages. -/
structure Db where
  agents : List AgentRec
  threads : List ThreadRec
  fileChunks : List FileChunk
  chatChunks : List ChatChunk
  redisKeys : List String
deriving DecidableEq

/-- `AgentManagementService.delete_agent` (`agent_management_service.py`
lines 55-76): `find_one({_id, owner_user_id})`; on a miss return `False`; on a
hit `delete_many({"metadata.agent_id": agent_id})` on the file collection, then
`delete_one({"_id": agent_id})` on the agent collection (modelled by `eraseP`;
the record just found guarantees `deleted_count > 0`, hence `True`).  Threads,
chat chunks and Redis keys are not touched. -/
def delete_agent (db : Db) (agent_id owner_user_id : String) : Db × Bool :=
  match db.agents.find? (fun a => a._id = agent_id ∧ a.owner_user_id = owner_user_id) with
  | none => (db, false)
  | some _ =>
    ({ db with
        fileChunks := db.fileChunks.filter (fun c => ¬ c.agent_id = some agent_id),
        agents := db.agents.eraseP (fun a => a._id = agent_id) },
     true)

/-- `ThreadManagementService.delete_thread` (`thread_management_service.py`
lines 56-88): on an owner-qualified hit, delete the thread's file chunks, its
long-term chat chunks, its Redis short-term key, then the thread record. -/
def delete_thread (db : Db) (thread_id owner_user_id : String) : Db × Bool :=
  match db.threads.find? (fun t => t._id = thread_id ∧ t.owner_user_id = owner_user_id) with
  | none => (db, false)
  | some _ =>
    ({ db with
        fileChunks := db.fileChunks.filter (fun c => ¬ c.thread_id = some thread_id),
        chatChunks := db.chatChunks.filter (fun c => ¬ c.thread_id = thread_id),
        redisKeys := db.redisKeys.filter (fun k => ¬ k = thread_id),
        threads := db.threads.eraseP (fun t => t._id = thread_id) },
     true)

/-- Outcome of an API endpoint: a success payload or an `HTTPException` status. -/
inductive ApiResult (α : Type) where
  | ok : α → ApiResult α
  | error : Nat → ApiResult α
deriving DecidableEq

/-- The `DELETE /agents/{agent_id}` handler (`api/v1/endpoints/agent_management.py`
lines 113-127): first `is_owner_of_agent` (403 on failure — also when the agent
does not exist), then `delete_agent` (404 when it reports failure). -/
def delete_agent_endpoint (db : Db) (agent_id owner_user_id : String) :
    ApiResult String × Db :=
  if ¬ is_owner_of_agent db.agents agent_id owner_user_id then
    (.error 403, db)
  else
    let res := delete_agent db agent_id owner_user_id
    if ¬ res.2 then (.error 404, res.1)
    else (.ok "deleted", res.1)

/-- A database with one agent `a1` (owner `u1`) holding two agent files, one
thread `t1` under `a1` with one thread file and two chat turns. -/
def dbCascade : Db :=
  { agents := [⟨"a1", "n", "u1", none⟩],
    threads := [⟨"t1", "tn", "u1", "a1"⟩],
    fileChunks := [⟨"f1", some "a1", none⟩, ⟨"f2", some "a1", none⟩,
                   ⟨"f3", none, some "t1"⟩],
    chatChunks := [⟨"t1", 1⟩, ⟨"t1", 2⟩],
    redisKeys := ["t1"] }

/-! ## File ingestion (`file_management_service.py` lines 54-56 and 132-193,
`ingestion_service.py` lines 115-167) -/

/-- `ingest_files` line 154: `file_id_map = {self._generate_file_id(): path
for path in file_paths}`.  `_generate_file_id` draws a fresh `file_<uuid4>`
per call, modelled by the counter `start, start+1, ...`; because every key is
freshly generated, the dict keeps one entry per occurrence of a path,
duplicates included. -/
def file_id_map (file_paths : List String) (start : Nat) : List (Nat × String) :=
  match file_paths with
  | [] => []
  | p :: rest => (start, p) :: file_id_map rest (start + 1)

/-- `range(0, len(nodes), batch_size)` slicing, `nodes[i : i + batch_size]`.
The first argument is fuel (instantiated with the list length; each step drops
`batch_size ≥ 1` elements — `ingestion_batch_size` is schema-constrained to be
positive). -/
def batchSlices {α : Type} (batch_size : Nat) : Nat → List α → List (List α)
  | 0, _ => []
  | _, [] => []
  | fuel + 1, nodes =>
    nodes.take batch_size :: batchSlices batch_size fuel (nodes.drop batch_size)

/-- The batch decomposition of the node list used by the ingestion loop. -/
def batched {α : Type} (nodes : List α) (batch_size : Nat) : List (List α) :=
  batchSlices batch_size nodes.length nodes

/-- Outcome of one ingestion run: the batches whose insert call returned,
the number of insert attempts made per batch (in batch order), and whether
the loop finished without an exception. -/
structure IngestRun (α : Type) where
  committed : List (List α)
  attempts : List Nat
  ok : Bool
deriving DecidableEq

/-- The batch loop of `ingest_files` / `IngestionPipeline.run` (lines 172-193
resp. 146-167).  `sched b a = true` means attempt `a` of batch `b`'s insert
call would succeed.  The code issues exactly one `VectorStoreIndex(...)` call
per batch with no retry; the first failing call raises out of the loop into
the surrounding `except Exception`, which logs and returns — later batches are
never attempted, earlier ones stay committed. -/
def ingest_batches_code {α : Type} (sched : Nat → Nat → Bool) :
    List (List α) → Nat → IngestRun α
  | [], _ => ⟨[], [], true⟩
  | b :: rest, i =>
    if sched i 0 then
      let r := ingest_batches_code sched rest (i + 1)
      ⟨b :: r.committed, 1 :: r.attempts, r.ok⟩
    else
      ⟨[], 1 :: rest.map (fun _ => 0), false⟩

/-- The whole batched insert phase of `ingest_files` on a prepared node list. -/
def ingest_files_batches {α : Type} (sched : Nat → Nat → Bool) (nodes : List α)
    (batch_size : Nat) : IngestRun α :=
  ingest_batches_code sched (batched nodes batch_size) 0

/-- Modelled from the spec (for comparison with `ingest_batches_code`): the
claimed retry discipline — "each batch insert is retried up to 3 times with
exponential backoff (base delay ~4s, cap ~10s)"; a batch that fails all three
attempts is abandoned and reported while the run continues and previously
committed batches remain.  The backoff delays do not influence which batches
commit and are not modelled. -/
def batch_commits_under_retry (sched : Nat → Nat → Bool) (b : Nat) : Bool :=
  sched b 0 || sched b 1 || sched b 2

/-- Modelled from the spec: attempts consumed by the claimed retry discipline
(stop at first success, at most 3). -/
def attempts_under_retry (sched : Nat → Nat → Bool) (b : Nat) : Nat :=
  if sched b 0 then 1 else if sched b 1 then 2 else 3

/-- Modelled from the spec: the batch loop as the claim describes it. -/
def ingest_batches_spec {α : Type} (sched : Nat → Nat → Bool) :
    List (List α) → Nat → IngestRun α
  | [], _ => ⟨[], [], true⟩
  | b :: rest, i =>
    let r := ingest_batches_spec sched rest (i + 1)
    if batch_commits_under_retry sched i then
      ⟨b :: r.committed, attempts_under_retry sched i :: r.attempts, r.ok⟩
    else
      ⟨r.committed, 3 :: r.attempts, false⟩

/-- A failure schedule where batch 0's first insert attempt fails but a retry
would succeed, and every other attempt succeeds. -/
def schedFirstAttemptFails : Nat → Nat → Bool :=
  fun b a => !(b == 0 && a == 0)

/-! ## Hybrid retrieval (`assistant_service.py`, `MongoCustomRetriever`) -/

/-- A document returned by a retrieval sub-query after its `$project` stage:
`_id`, `text` and `score`.  The code never computes with scores (they are
payload copied into `NodeWithScore`), so the score is modelled as an opaque
`Int` tag. -/
structure RetDoc where
  _id : String
  text : String
  score : Int
deriving DecidableEq

/-- Python `d[k] = v` on a `dict`, modelled on an association list: an
existing key keeps its position but its value is replaced; a new key is
appended at the end (insertion order). -/
def dict_set (d : List (String × RetDoc)) (k : String) (v : RetDoc) :
    List (String × RetDoc) :=
  match d with
  | [] => [(k, v)]
  | (k', v') :: rest =>
    if k' = k then (k', v) :: rest else (k', v') :: dict_set rest k v

/-- The loop `for doc in docs: final_docs_dict[str(doc["_id"])] = doc`,
starting from dictionary `d0`. -/
def build_docs_dict (docs : List RetDoc) (d0 : List (String × RetDoc)) :
    List (String × RetDoc) :=
  docs.foldl (fun d doc => dict_set d doc._id doc) d0

/-- `MongoCustomRetriever._retrieve`, Hybrid branch, merge step (lines
128-131): the dict is filled from `keyword_results + vector_results` (keyword
first, so a vector entry with the same id overwrites the keyword entry), and
`final_results_list = list(final_docs_dict.values())`. -/
def hybrid_merge (keyword_results vector_results : List RetDoc) : List RetDoc :=
  (build_docs_dict (keyword_results ++ vector_results) []).map Prod.snd

/-- `final_docs_dict[k]`, for specifications. -/
def dlookup (d : List (String × RetDoc)) (k : String) : Option RetDoc :=
  (d.find? (fun p => p.1 = k)).map Prod.snd

/-- The last document of `docs` whose `_id` is `k` (the one a dict fill
keeps as the value of key `k`). -/
def last_doc_with (docs : List RetDoc) (k : String) : Option RetDoc :=
  match docs with
  | [] => none
  | doc :: rest =>
    match last_doc_with rest k with
    | some v => some v
    | none => if doc._id = k then some doc else none

/-- `MongoCustomRetriever._run_query` (`assistant_service.py` lines 49-55):
the aggregate call either returns a document list or raises; an exception is
logged and degraded to `[]`. -/
def run_query (outcome : Except String (List RetDoc)) : List RetDoc :=
  match outcome with
  | .ok docs => docs
  | .error _ => []

/-- `MongoCustomRetriever._retrieve` for `search_type = "Hybrid"` (lines
57-131).  The query embedding is computed first and is not protected by any
handler (line 61), so its failure propagates.  The two sub-queries then run
concurrently in a `ThreadPoolExecutor` with no shared state and no data
dependency — modelled by their outcomes entering as independent parameters —
each degraded by `run_query`, then merged. -/
def retrieve_hybrid (embed : Except String (List Int))
    (vector_outcome keyword_outcome : Except String (List RetDoc)) :
    Except String (List RetDoc) :=
  match embed with
  | .error e => .error e
  | .ok _ => .ok (hybrid_merge (run_query keyword_outcome) (run_query vector_outcome))

/-! ## Claim theorems: permission engine -/

/-- C1 counterexample: the owner is NOT always a member of the returned
applied set.  In the inherit case (`requested_user_ids` = `None`) with a
public agent (`agent_user_ids = []`), `calculate_file_permissions` returns
`applied = []`, which does not contain the owner `u1`; likewise
`adjust_file_on_agent_permissions` never unions in an owner at all. -/
theorem calc_permissions_inherit_drops_owner :
    ¬ ("u1" ∈ (calculate_file_permissions [] none "u1").1) ∧
    ¬ ("o1" ∈ (adjust_file_on_agent_permissions ["a"] (some ["b"])).1) := by
  decide

/-- C1 (amended): `owner_id ∈ applied` is guaranteed only in
`calculate_file_permissions`' explicit-request branch (`requested_user_ids`
non-`None` and non-empty, where `applied_ids.add(owner_user_id)` runs); in the
inherit branch the applied set is the agent's list unchanged, so the owner is a
member only if already in that list. -/
theorem calc_permissions_owner_mem (A l : List String) (o : String) (h : l ≠ []) :
    o ∈ (calculate_file_permissions A (some l) o).1 ∧
    (calculate_file_permissions A none o).1 = A.toFinset ∧
    (calculate_file_permissions A (some []) o).1 = A.toFinset := by
  refine ⟨?_, rfl, rfl⟩
  match l, h with
  | x :: xs, _ =>
    simp only [calculate_file_permissions]
    split <;> exact Finset.mem_insert_self _ _

/-- Witness for `calc_permissions_owner_mem` at the spec's own E2E example:
restricted agent `{"u2","u4"}`, requested `{"u4","u5"}`, owner `u1`. -/
theorem calc_permissions_owner_mem_witness :
    "u1" ∈ (calculate_file_permissions ["u2", "u4"] (some ["u4", "u5"]) "u1").1 :=
  (calc_permissions_owner_mem ["u2", "u4"] ["u4", "u5"] "u1" (by decide)).1

/-- C8: thread-scoped permission resolution locks files to the thread owner:
`applied = {owner}` exactly, and `excluded = requested − {owner}`, for every
requested list (including `None`). -/
theorem adjust_thread_permissions_lockdown (o : String) (R : Option (List String))
    (u : String) :
    (u ∈ (adjust_file_on_thread_permissions o R).1 ↔ u = o) ∧
    (u ∈ (adjust_file_on_thread_permissions o R).2 ↔ (u ∈ R.getD [] ∧ u ≠ o)) := by
  simp [adjust_file_on_thread_permissions]

/-! ## Claim theorems: agent access checks -/

/-- C2 (code bug evaluated): an agent created with an empty `user_ids` list is
stored with `user_ids = None`, and `has_access_to_agent` then raises
`TypeError` (`user_id in None`) for every caller instead of granting public
access; only a literally-empty stored list behaves as public. -/
theorem has_access_public_agent_raises :
    create_agent [] "agt_1" "helper" "u1" (some []) =
      .ok ([⟨"agt_1", "helper", "u1", none⟩], ⟨"agt_1", "helper", "u1", none⟩) ∧
    has_access_to_agent [⟨"agt_1", "helper", "u1", none⟩] "agt_1" "u2" =
      .error .typeError ∧
    has_access_to_agent [⟨"agt_2", "x", "u1", some []⟩] "agt_2" "u2" = .ok true := by
  refine ⟨rfl, rfl, rfl⟩

/-- C10: `get_agent_by_id` / `get_thread_by_id` never successfully return
`None`: the `pop("_id")` rename is applied unconditionally, so an unknown id
raises `TypeError` instead — callers must establish existence beforehand. -/
theorem get_by_id_requires_existence (agents : List AgentRec)
    (threads : List ThreadRec) (i : String) :
    (get_agent_by_id agents i ≠ .ok none ∧ get_thread_by_id threads i ≠ .ok none) ∧
    (agents.find? (fun a => a._id = i) = none →
      get_agent_by_id agents i = .error .typeError) ∧
    (threads.find? (fun t => t._id = i) = none →
      get_thread_by_id threads i = .error .typeError) := by
  refine ⟨⟨?_, ?_⟩, ?_, ?_⟩
  · unfold get_agent_by_id
    cases h : agents.find? (fun a => a._id = i) <;> simp
  · unfold get_thread_by_id
    cases h : threads.find? (fun t => t._id = i) <;> simp
  · intro h
    unfold get_agent_by_id
    rw [h]
  · intro h
    unfold get_thread_by_id
    rw [h]

/-- Witness for `get_by_id_requires_existence`: on an empty directory every
lookup raises. -/
theorem get_by_id_requires_existence_witness :
    get_agent_by_id [] "agt_missing" = .error .typeError ∧
    get_thread_by_id [] "thd_missing" = .error .typeError :=
  ⟨(get_by_id_requires_existence [] [] "agt_missing").2.1 rfl,
   (get_by_id_requires_existence [] [] "thd_missing").2.2 rfl⟩

/-! ## Claim theorems: delete cascades (C6) and error ordering (C9) -/

/-- If the keys of `l` are distinct, removing the first element with key `k`
leaves no element with key `k`. -/
theorem filter_eraseP_eq_nil {α : Type} (key : α → String) (k : String) :
    ∀ l : List α, (l.map key).Nodup →
      (l.eraseP (fun a => key a = k)).filter (fun a => key a = k) = [] := by
  intro l
  induction l with
  | nil => intro _; rfl
  | cons x xs ih =>
    intro hn
    rw [List.map_cons, List.nodup_cons] at hn
    by_cases hx : key x = k
    · rw [List.eraseP_cons_of_pos (by simpa using hx)]
      rw [List.filter_eq_nil_iff]
      intro a ha
      simp only [decide_eq_true_eq]
      intro hak
      exact hn.1 (hx ▸ hak ▸ List.mem_map_of_mem key ha)
    · rw [List.eraseP_cons_of_neg (by simpa using hx)]
      rw [List.filter_cons_of_neg (by simpa using hx)]
      exact ih hn.2

/-- C6 counterexample: deleting agent `a1` (which succeeds) leaves its thread
`t1`, the thread's file chunk and both chat turns in place — chunks and turns
still reference the descendant `thread_id` of the deleted agent. -/
theorem delete_agent_leaves_thread_descendants :
    (delete_agent dbCascade "a1" "u1").2 = true ∧
    dbCascade.threads = [⟨"t1", "tn", "u1", "a1"⟩] ∧
    (delete_agent dbCascade "a1" "u1").1.threads = [⟨"t1", "tn", "u1", "a1"⟩] ∧
    (delete_agent dbCascade "a1" "u1").1.fileChunks = [⟨"f3", none, some "t1"⟩] ∧
    (delete_agent dbCascade "a1" "u1").1.chatChunks = [⟨"t1", 1⟩, ⟨"t1", 2⟩] := by
  refine ⟨rfl, rfl, rfl, rfl, rfl⟩

/-- C6 (amended): a successful `delete_agent` removes exactly the file chunks
tagged with the agent's id and the agent record itself; the agent's threads,
their chat chunks and their Redis buffers are not cascaded (they are removed
only by `delete_thread`). -/
theorem delete_agent_cascade_scope (db : Db) (aid o : String)
    (h : (delete_agent db aid o).2 = true)
    (hnd : (db.agents.map (fun a => a._id)).Nodup) :
    (delete_agent db aid o).1.fileChunks.filter (fun c => c.agent_id = some aid) = [] ∧
    (delete_agent db aid o).1.agents.filter (fun a => a._id = aid) = [] ∧
    (delete_agent db aid o).1.fileChunks
      = db.fileChunks.filter (fun c => ¬ c.agent_id = some aid) ∧
    (delete_agent db aid o).1.threads = db.threads ∧
    (delete_agent db aid o).1.chatChunks = db.chatChunks ∧
    (delete_agent db aid o).1.redisKeys = db.redisKeys := by
  unfold delete_agent at h ⊢
  cases hf : db.agents.find? (fun a => a._id = aid ∧ a.owner_user_id = o) with
  | none => rw [hf] at h; simp at h
  | some a =>
    dsimp only
    refine ⟨?_, ?_, rfl, rfl, rfl, rfl⟩
    · rw [List.filter_eq_nil_iff]
      intro c hc
      have hcp := (List.mem_filter.mp hc).2
      simp only [decide_eq_true_eq] at hcp ⊢
      exact hcp
    · exact filter_eraseP_eq_nil (fun a => a._id) aid db.agents hnd

/-- Witness for `delete_agent_cascade_scope` on the concrete cascade database. -/
theorem delete_agent_cascade_scope_witness :
    (delete_agent dbCascade "a1" "u1").1.fileChunks.filter
        (fun c => c.agent_id = some "a1") = [] ∧
    (delete_agent dbCascade "a1" "u1").1.agents.filter (fun a => a._id = "a1") = [] ∧
    (delete_agent dbCascade "a1" "u1").1.fileChunks
      = dbCascade.fileChunks.filter (fun c => ¬ c.agent_id = some "a1") ∧
    (delete_agent dbCascade "a1" "u1").1.threads = dbCascade.threads ∧
    (delete_agent dbCascade "a1" "u1").1.chatChunks = dbCascade.chatChunks ∧
    (delete_agent dbCascade "a1" "u1").1.redisKeys = dbCascade.redisKeys :=
  delete_agent_cascade_scope dbCascade "a1" "u1" rfl (by decide)

/-- C9 counterexample: on the agent delete path, a request naming a nonexistent
agent id is answered with `403 Forbidden`, not `404 NotFound` — the ownership
check runs first and treats "missing" as "not owner". -/
theorem delete_missing_agent_yields_forbidden :
    (delete_agent_endpoint ⟨[], [], [], [], []⟩ "a1" "u1").1 = .error 403 ∧
    (ApiResult.error 403 : ApiResult String) ≠ .error 404 := by
  refine ⟨rfl, by decide⟩

/-- C9 (amended): the agent delete endpoint checks ownership before existence:
a nonexistent id and an existing id owned by someone else both yield `403`,
indistinguishable to the caller; the `404` branch is unreachable. -/
theorem delete_agent_endpoint_ordering (db : Db) (aid o : String) :
    (db.agents.find? (fun a => a._id = aid) = none →
      (delete_agent_endpoint db aid o).1 = .error 403) ∧
    (∀ a, db.agents.find? (fun a => a._id = aid) = some a → a.owner_user_id ≠ o →
      (delete_agent_endpoint db aid o).1 = .error 403) ∧
    (delete_agent_endpoint db aid o).1 ≠ .error 404 := by
  refine ⟨?_, ?_, ?_⟩
  · intro h
    unfold delete_agent_endpoint is_owner_of_agent
    rw [h]
    simp
  · intro a ha hne
    unfold delete_agent_endpoint is_owner_of_agent
    rw [ha]
    simp [hne]
  · cases ho : is_owner_of_agent db.agents aid o with
    | false =>
      unfold delete_agent_endpoint
      rw [ho]
      simp
    | true =>
      unfold is_owner_of_agent at ho
      cases hf : db.agents.find? (fun a => a._id = aid) with
      | none => rw [hf] at ho; simp at ho
      | some a =>
        rw [hf] at ho
        have hown : a.owner_user_id = o := by simpa using ho
        have hmem : a ∈ db.agents := List.mem_of_find?_eq_some hf
        have hid : a._id = aid := by simpa using List.find?_some hf
        cases hg : db.agents.find? (fun x => x._id = aid ∧ x.owner_user_id = o) with
        | none =>
          exfalso
          have := List.find?_eq_none.mp hg a hmem
          simp [hid, hown] at this
        | some b =>
          unfold delete_agent_endpoint delete_agent
          rw [hg]
          simp [is_owner_of_agent, hf, hown]

/-- Witness for `delete_agent_endpoint_ordering`: both hypotheses discharged on
concrete stores. -/
theorem delete_agent_endpoint_ordering_witness :
    (delete_agent_endpoint ⟨[], [], [], [], []⟩ "a9" "u1").1 = .error 403 ∧
    (delete_agent_endpoint ⟨[⟨"a9", "n", "u2", none⟩], [], [], [], []⟩ "a9" "u1").1
      = .error 403 :=
  ⟨(delete_agent_endpoint_ordering ⟨[], [], [], [], []⟩ "a9" "u1").1 rfl,
   (delete_agent_endpoint_ordering ⟨[⟨"a9", "n", "u2", none⟩], [], [], [], []⟩
      "a9" "u1").2.1 ⟨"a9", "n", "u2", none⟩ rfl (by decide)⟩

/-! ## Claim theorems: ingestion id assignment (C4) and batching (C5) -/

/-- Every id generated for a path list is at least the starting counter. -/
theorem file_id_map_fst_lb (l : List String) :
    ∀ s k : Nat, k ∈ (file_id_map l s).map Prod.fst → s ≤ k := by
  induction l with
  | nil =>
    intro s k h
    simp [file_id_map] at h
  | cons p rest ih =>
    intro s k h
    simp only [file_id_map, List.map_cons, List.mem_cons] at h
    rcases h with h | h
    · omega
    · have := ih (s + 1) k h
      omega

/-- C4 counterexample: ingesting `["doc.txt", "doc.txt"]` keeps both
occurrences and assigns them two distinct fresh file ids — the input list is
not deduplicated and the repeated path does not share one `file_id`. -/
theorem file_id_map_no_dedup :
    file_id_map ["doc.txt", "doc.txt"] 0 = [(0, "doc.txt"), (1, "doc.txt")] ∧
    (0 : Nat) ≠ 1 :=
  ⟨rfl, by decide⟩

/-- C4 (amended): `ingest_files` performs no deduplication of `file_paths`:
every occurrence of a path — duplicates included — survives and receives its
own fresh unique `file_id`, so a path repeated N times yields N file records,
the chunks of each occurrence sharing that occurrence's id. -/
theorem file_id_map_fresh_per_occurrence (l : List String) :
    ∀ s : Nat,
      (file_id_map l s).map Prod.snd = l ∧
      ((file_id_map l s).map Prod.fst).Nodup ∧
      (file_id_map l s).length = l.length := by
  induction l with
  | nil => intro s; exact ⟨rfl, List.nodup_nil, rfl⟩
  | cons p rest ih =>
    intro s
    refine ⟨?_, ?_, ?_⟩
    · simp [file_id_map, (ih (s + 1)).1]
    · simp only [file_id_map, List.map_cons]
      rw [List.nodup_cons]
      refine ⟨fun hmem => ?_, (ih (s + 1)).2.1⟩
      have := file_id_map_fst_lb rest (s + 1) s hmem
      omega
    · simp [file_id_map, (ih (s + 1)).2.2]

/-- C5 counterexample: four nodes, batch size 2, and a schedule on which batch
0's first insert attempt fails but its first retry would succeed.  Under the
claimed retry discipline both batches commit; the code instead makes a single
attempt at batch 0, commits nothing, never attempts batch 1, and aborts. -/
theorem ingest_batches_no_retry :
    ingest_files_batches schedFirstAttemptFails [1, 2, 3, 4] 2
      = ⟨[], [1, 0], false⟩ ∧
    ingest_batches_spec schedFirstAttemptFails (batched [1, 2, 3, 4] 2) 0
      = ⟨[[1, 2], [3, 4]], [2, 1], true⟩ ∧
    (⟨[], [1, 0], false⟩ : IngestRun Nat) ≠ ⟨[[1, 2], [3, 4]], [2, 1], true⟩ :=
  ⟨rfl, rfl, by decide⟩

/-- The committed batches of a code run form a prefix of the batch list. -/
theorem ingest_code_committed_front {α : Type} (sched : Nat → Nat → Bool) :
    ∀ (bs : List (List α)) (i : Nat),
      (ingest_batches_code sched bs i).committed <+: bs := by
  intro bs
  induction bs with
  | nil =>
    intro i
    simp [ingest_batches_code]
  | cons b rest ih =>
    intro i
    by_cases hs : sched i 0
    · obtain ⟨t, ht⟩ := ih (i + 1)
      exact ⟨t, by simp [ingest_batches_code, hs, ht]⟩
    · exact ⟨b :: rest, by simp [ingest_batches_code, hs]⟩

/-- The code makes at most one insert attempt per batch: no retry ever runs. -/
theorem ingest_code_attempts_le_one {α : Type} (sched : Nat → Nat → Bool) :
    ∀ (bs : List (List α)) (i : Nat),
      ∀ a ∈ (ingest_batches_code sched bs i).attempts, a ≤ 1 := by
  intro bs
  induction bs with
  | nil =>
    intro i a ha
    simp [ingest_batches_code] at ha
  | cons b rest ih =>
    intro i a ha
    by_cases hs : sched i 0
    · simp only [ingest_batches_code, if_pos hs, List.mem_cons] at ha
      rcases ha with ha | ha
      · omega
      · exact ih (i + 1) a ha
    · simp only [ingest_batches_code, if_neg hs, List.mem_cons, List.mem_map] at ha
      rcases ha with ha | ⟨_, _, ha⟩ <;> omega

/-- A run that finishes without an exception committed every batch. -/
theorem ingest_code_ok_all {α : Type} (sched : Nat → Nat → Bool) :
    ∀ (bs : List (List α)) (i : Nat),
      (ingest_batches_code sched bs i).ok = true →
      (ingest_batches_code sched bs i).committed = bs := by
  intro bs
  induction bs with
  | nil =>
    intro i _
    simp [ingest_batches_code]
  | cons b rest ih =>
    intro i hok
    by_cases hs : sched i 0
    · simp only [ingest_batches_code, if_pos hs] at hok ⊢
      rw [ih (i + 1) hok]
    · simp [ingest_batches_code, if_neg hs] at hok

/-- Concatenating the batch slices gives back the node list. -/
theorem batchSlices_join {α : Type} (size : Nat) (hs : 0 < size) :
    ∀ (fuel : Nat) (nodes : List α), nodes.length ≤ fuel →
      (batchSlices size fuel nodes).flatten = nodes := by
  intro fuel
  induction fuel with
  | zero =>
    intro nodes h
    have hnil : nodes = [] := List.eq_nil_of_length_eq_zero (Nat.le_zero.mp h)
    subst hnil
    rfl
  | succ n ih =>
    intro nodes h
    cases nodes with
    | nil => rfl
    | cons x xs =>
      simp only [batchSlices, List.flatten_cons]
      rw [ih ((x :: xs).drop size) (by rw [List.length_drop]; simp only [List.length_cons] at h ⊢; omega)]
      exact List.take_append_drop size (x :: xs)

/-- C5 (amended): chunks are inserted sequentially in fixed-size batches of
`ingestion_batch_size`, but there is no per-batch retry: every batch gets at
most one insert attempt, the first failing batch aborts the run (it and all
later batches are abandoned, the exception only logged), while the batches
committed before it remain committed — they form a prefix of the node list —
and only a failure-free run commits everything. -/
theorem ingest_batches_abort_semantics {α : Type} (sched : Nat → Nat → Bool)
    (nodes : List α) (batch_size : Nat) (h : 0 < batch_size) :
    (ingest_files_batches sched nodes batch_size).committed.flatten <+: nodes ∧
    (∀ a ∈ (ingest_files_batches sched nodes batch_size).attempts, a ≤ 1) ∧
    ((ingest_files_batches sched nodes batch_size).ok = true →
      (ingest_files_batches sched nodes batch_size).committed.flatten = nodes) := by
  have hjoin : (batched nodes batch_size).flatten = nodes :=
    batchSlices_join batch_size h nodes.length nodes (Nat.le_refl _)
  refine ⟨?_, ?_, ?_⟩
  · obtain ⟨t, ht⟩ :=
      ingest_code_committed_front sched (batched nodes batch_size) 0
    exact ⟨t.flatten, by
      unfold ingest_files_batches
      rw [← List.flatten_append, ht, hjoin]⟩
  · exact ingest_code_attempts_le_one sched (batched nodes batch_size) 0
  · intro hok
    unfold ingest_files_batches at hok ⊢
    rw [ingest_code_ok_all sched (batched nodes batch_size) 0 hok, hjoin]

/-- Witness for `ingest_batches_abort_semantics` on the counterexample run. -/
theorem ingest_batches_abort_semantics_witness :
    (ingest_files_batches schedFirstAttemptFails [1, 2, 3, 4] 2).committed.flatten
      <+: [1, 2, 3, 4] :=
  (ingest_batches_abort_semantics schedFirstAttemptFails [1, 2, 3, 4] 2
    (by decide)).1


/-! ## Dictionary lemmas for the hybrid merge -/

/-- Looking a key up in a cons cell. -/
theorem dlookup_cons (k1 : String) (v1 : RetDoc) (rest : List (String × RetDoc))
    (k' : String) :
    dlookup ((k1, v1) :: rest) k' = if k1 = k' then some v1 else dlookup rest k' := by
  by_cases h : k1 = k'
  · rw [dlookup, List.find?_cons_of_pos _ (by simpa using h), if_pos h]
    rfl
  · rw [dlookup, List.find?_cons_of_neg _ (by simpa using h), if_neg h]
    rfl

/-- `d[k] = v` updates key `k` and leaves every other key's binding alone. -/
theorem dlookup_dict_set (k : String) (v : RetDoc) :
    ∀ (d : List (String × RetDoc)) (k' : String),
      dlookup (dict_set d k v) k' = if k' = k then some v else dlookup d k' := by
  intro d
  induction d with
  | nil =>
    intro k'
    by_cases h : k' = k
    · simp [dict_set, dlookup_cons, h]
    · simp [dict_set, dlookup_cons, dlookup, h, Ne.symm h]
  | cons p rest ih =>
    intro k'
    obtain ⟨k1, v1⟩ := p
    by_cases h1 : k1 = k
    · subst h1
      by_cases h2 : k' = k1
      · subst h2
        simp [dict_set, dlookup_cons]
      · have hne : ¬ k1 = k' := fun hh => h2 hh.symm
        have hds : dict_set ((k1, v1) :: rest) k1 v = (k1, v) :: rest := by
          simp [dict_set]
        rw [hds, dlookup_cons, if_neg hne, if_neg h2, dlookup_cons, if_neg hne]
    · by_cases h2 : k' = k1
      · subst h2
        simp only [dict_set, if_neg h1]
        rw [dlookup_cons, if_pos rfl, dlookup_cons, if_pos rfl]
      · have hne : ¬ k1 = k' := fun hh => h2 hh.symm
        simp only [dict_set, if_neg h1]
        rw [dlookup_cons, if_neg hne, ih k', dlookup_cons, if_neg hne]

/-- `d[k] = v` keeps the key sequence when `k` is present and appends `k`
otherwise. -/
theorem keys_dict_set (k : String) (v : RetDoc) :
    ∀ d : List (String × RetDoc),
      (dict_set d k v).map Prod.fst =
        if k ∈ d.map Prod.fst then d.map Prod.fst else d.map Prod.fst ++ [k] := by
  intro d
  induction d with
  | nil => simp [dict_set]
  | cons p rest ih =>
    obtain ⟨k1, v1⟩ := p
    by_cases h1 : k1 = k
    · simp [dict_set, h1]
    · by_cases hk : k ∈ rest.map Prod.fst
      · simp [dict_set, h1, Ne.symm h1, hk, ih]
      · simp [dict_set, h1, Ne.symm h1, hk, ih]

/-- `d[k] = v` preserves distinctness of the keys. -/
theorem keys_nodup_dict_set (k : String) (v : RetDoc) (d : List (String × RetDoc))
    (h : (d.map Prod.fst).Nodup) : ((dict_set d k v).map Prod.fst).Nodup := by
  rw [keys_dict_set]
  by_cases hk : k ∈ d.map Prod.fst
  · rw [if_pos hk]
    exact h
  · rw [if_neg hk, List.nodup_append]
    exact ⟨h, List.nodup_singleton k, by simpa [List.disjoint_singleton] using hk⟩

/-- `d[k] = v` preserves the invariant that every stored value carries its own
key as `_id`, provided the inserted pair does. -/
theorem snd_id_dict_set (k : String) (v : RetDoc) (hv : v._id = k) :
    ∀ d : List (String × RetDoc),
      (∀ p ∈ d, (p : String × RetDoc).2._id = p.1) →
      ∀ p ∈ dict_set d k v, (p : String × RetDoc).2._id = p.1 := by
  intro d
  induction d with
  | nil =>
    intro _ p hp
    simp only [dict_set, List.mem_singleton] at hp
    subst hp
    exact hv
  | cons q rest ih =>
    obtain ⟨k1, v1⟩ := q
    intro hd p hp
    by_cases h1 : k1 = k
    · simp only [dict_set, if_pos h1, List.mem_cons] at hp
      rcases hp with hp | hp
      · subst hp
        exact hv.trans h1.symm
      · exact hd p (List.mem_cons_of_mem _ hp)
    · simp only [dict_set, if_neg h1, List.mem_cons] at hp
      rcases hp with hp | hp
      · subst hp
        exact hd (k1, v1) (List.mem_cons_self _ _)
      · exact ih (fun q hq => hd q (List.mem_cons_of_mem _ hq)) p hp

/-- The dict fill keeps, for each key, the LAST document of the input with
that `_id` (later writes overwrite earlier ones). -/
theorem dlookup_build_docs_dict (k : String) :
    ∀ (docs : List RetDoc) (d0 : List (String × RetDoc)),
      dlookup (build_docs_dict docs d0) k =
        match last_doc_with docs k with
        | some v => some v
        | none => dlookup d0 k := by
  intro docs
  induction docs with
  | nil => intro d0; rfl
  | cons doc rest ih =>
    intro d0
    have hstep : build_docs_dict (doc :: rest) d0
        = build_docs_dict rest (dict_set d0 doc._id doc) := rfl
    rw [hstep, ih, dlookup_dict_set]
    cases hl : last_doc_with rest k with
    | some w => simp [last_doc_with, hl]
    | none =>
      by_cases hd : doc._id = k
      · simp [last_doc_with, hl, hd]
      · simp [last_doc_with, hl, hd, Ne.symm hd]

/-- The keys of a filled dict are distinct when the initial dict's are. -/
theorem build_docs_dict_nodup :
    ∀ (docs : List RetDoc) (d0 : List (String × RetDoc)),
      (d0.map Prod.fst).Nodup → ((build_docs_dict docs d0).map Prod.fst).Nodup := by
  intro docs
  induction docs with
  | nil => intro d0 h; exact h
  | cons doc rest ih =>
    intro d0 h
    exact ih (dict_set d0 doc._id doc) (keys_nodup_dict_set doc._id doc d0 h)

/-- Every value of a filled dict carries its key as `_id`. -/
theorem build_docs_dict_snd_id :
    ∀ (docs : List RetDoc) (d0 : List (String × RetDoc)),
      (∀ p ∈ d0, (p : String × RetDoc).2._id = p.1) →
      ∀ p ∈ build_docs_dict docs d0, (p : String × RetDoc).2._id = p.1 := by
  intro docs
  induction docs with
  | nil => intro d0 h; exact h
  | cons doc rest ih =>
    intro d0 h
    exact ih (dict_set d0 doc._id doc) (snd_id_dict_set doc._id doc rfl d0 h)

/-- `last_doc_with` finds a member with the looked-up id. -/
theorem last_doc_with_mem (k : String) :
    ∀ (docs : List RetDoc) (v : RetDoc),
      last_doc_with docs k = some v → v ∈ docs ∧ v._id = k := by
  intro docs
  induction docs with
  | nil =>
    intro v h
    simp [last_doc_with] at h
  | cons doc rest ih =>
    intro v h
    simp only [last_doc_with] at h
    cases hl : last_doc_with rest k with
    | some w =>
      rw [hl] at h
      obtain rfl : w = v := by injection h
      exact ⟨List.mem_cons_of_mem _ (ih w hl).1, (ih w hl).2⟩
    | none =>
      rw [hl] at h
      by_cases hd : doc._id = k
      · rw [if_pos hd] at h
        obtain rfl : doc = v := by injection h
        exact ⟨List.mem_cons_self _ _, hd⟩
      · rw [if_neg hd] at h
        exact absurd h (by simp)

/-- A list containing a document with the looked-up id yields a hit. -/
theorem last_doc_with_isSome (k : String) :
    ∀ docs : List RetDoc, (∃ d ∈ docs, d._id = k) →
      (last_doc_with docs k).isSome := by
  intro docs
  induction docs with
  | nil =>
    intro h
    simp at h
  | cons doc rest ih =>
    intro h
    simp only [last_doc_with]
    cases hl : last_doc_with rest k with
    | some w => rfl
    | none =>
      obtain ⟨d, hd, hdk⟩ := h
      rcases List.mem_cons.mp hd with rfl | hd2
      · simp [hdk]
      · have hsome := ih ⟨d, hd2, hdk⟩
        rw [hl] at hsome
        simp at hsome

/-- The last matching document of a concatenation comes from the second part
when the second part has a match. -/
theorem last_doc_with_append (k : String) (A B : List RetDoc) :
    last_doc_with (A ++ B) k =
      match last_doc_with B k with
      | some v => some v
      | none => last_doc_with A k := by
  induction A with
  | nil =>
    simp only [List.nil_append]
    cases hB : last_doc_with B k <;> simp [last_doc_with, hB]
  | cons doc restA ih =>
    have hcons : last_doc_with ((doc :: restA) ++ B) k
        = match last_doc_with (restA ++ B) k with
          | some v => some v
          | none => if doc._id = k then some doc else none := rfl
    rw [hcons, ih]
    cases hB : last_doc_with B k with
    | some w => simp
    | none =>
      cases hA : last_doc_with restA k with
      | some u => simp [last_doc_with, hA]
      | none => simp [last_doc_with, hA]

/-- With distinct keys and key-consistent values, the filtered value list of a
dict with a hit at `k` is exactly that one hit. -/
theorem values_filter_of_dlookup :
    ∀ d : List (String × RetDoc), (d.map Prod.fst).Nodup →
      (∀ p ∈ d, (p : String × RetDoc).2._id = p.1) →
      ∀ k v, dlookup d k = some v →
        (d.map Prod.snd).filter (fun y => y._id = k) = [v] := by
  intro d
  induction d with
  | nil =>
    intro _ _ k v h
    simp [dlookup] at h
  | cons p rest ih =>
    obtain ⟨k1, v1⟩ := p
    intro hnd hinv k v h
    rw [dlookup_cons] at h
    have hv1 : v1._id = k1 := hinv (k1, v1) (List.mem_cons_self _ _)
    rw [List.map_cons, List.nodup_cons] at hnd
    by_cases h1 : k1 = k
    · rw [if_pos h1] at h
      obtain rfl : v1 = v := by injection h
      have hnil : (rest.map Prod.snd).filter (fun y => y._id = k) = [] := by
        rw [List.filter_eq_nil_iff]
        intro y hy
        obtain ⟨q, hq, rfl⟩ := List.mem_map.mp hy
        have hqid := hinv q (List.mem_cons_of_mem _ hq)
        simp only [decide_eq_true_eq]
        intro hyk
        apply hnd.1
        have hq1 : q.1 = k1 := hqid.symm.trans (hyk.trans h1.symm)
        have hmemq : q.1 ∈ rest.map Prod.fst := List.mem_map_of_mem Prod.fst hq
        rw [hq1] at hmemq
        exact hmemq
      simp only [List.map_cons]
      rw [List.filter_cons_of_pos (by simp [hv1, h1]), hnil]
    · rw [if_neg h1] at h
      simp only [List.map_cons]
      rw [List.filter_cons_of_neg (by simp [hv1, h1])]
      exact ih hnd.2 (fun q hq => hinv q (List.mem_cons_of_mem _ hq)) k v h

/-- Appending a fresh key is a plain append. -/
theorem dict_set_fresh (k : String) (v : RetDoc) :
    ∀ d0 : List (String × RetDoc), k ∉ d0.map Prod.fst →
      dict_set d0 k v = d0 ++ [(k, v)] := by
  intro d0
  induction d0 with
  | nil => intro _; rfl
  | cons p rest ih =>
    obtain ⟨k1, v1⟩ := p
    intro hk
    simp only [List.map_cons, List.mem_cons] at hk
    push_neg at hk
    have hne : ¬ k1 = k := fun hh => hk.1 hh.symm
    simp only [dict_set, if_neg hne]
    rw [ih hk.2, List.cons_append]

/-- Filling an empty dict from documents with pairwise-distinct ids keeps them
all, in order. -/
theorem build_docs_dict_fresh :
    ∀ (docs : List RetDoc) (d0 : List (String × RetDoc)),
      (docs.map (fun doc => doc._id)).Nodup →
      (∀ doc ∈ docs, doc._id ∉ d0.map Prod.fst) →
      build_docs_dict docs d0 = d0 ++ docs.map (fun doc => (doc._id, doc)) := by
  intro docs
  induction docs with
  | nil => intro d0 _ _; simp [build_docs_dict]
  | cons doc rest ih =>
    intro d0 hnd hdisj
    rw [List.map_cons, List.nodup_cons] at hnd
    have hstep : build_docs_dict (doc :: rest) d0
        = build_docs_dict rest (dict_set d0 doc._id doc) := rfl
    rw [hstep, dict_set_fresh doc._id doc d0 (hdisj doc (List.mem_cons_self _ _))]
    rw [ih (d0 ++ [(doc._id, doc)]) hnd.2 ?_]
    · simp
    · intro r hr
      simp only [List.map_append, List.mem_append]
      push_neg
      refine ⟨hdisj r (List.mem_cons_of_mem _ hr), ?_⟩
      simp only [List.map_cons, List.map_nil, List.mem_singleton]
      intro hrd
      exact hnd.1 (hrd ▸ List.mem_map_of_mem (fun doc => doc._id) hr)

/-- A hybrid merge against one empty side is the identity on id-distinct
result lists (degraded single-source results pass through unchanged). -/
theorem hybrid_merge_one_sided (l : List RetDoc)
    (h : (l.map (fun d => d._id)).Nodup) :
    hybrid_merge l [] = l ∧ hybrid_merge [] l = l := by
  have h1 : build_docs_dict l [] = l.map (fun doc => (doc._id, doc)) := by
    simpa using build_docs_dict_fresh l [] h (by simp)
  constructor
  · show (build_docs_dict (l ++ []) []).map Prod.snd = l
    rw [List.append_nil, h1, List.map_map]
    exact List.map_id l
  · show (build_docs_dict ([] ++ l) []).map Prod.snd = l
    rw [List.nil_append, h1, List.map_map]
    exact List.map_id l

/-! ## Claim theorems: hybrid merge (C3) and failure semantics (C7) -/

/-- C3 counterexample: when both sub-queries return the same chunk id `x`, the
merge keeps the VECTOR call's score/text, not the keyword call's: the dict is
filled keyword-first and the vector entry overwrites it. -/
theorem hybrid_merge_keeps_vector_doc :
    hybrid_merge [⟨"x", "keyword text", 10⟩] [⟨"x", "vector text", 20⟩]
      = [⟨"x", "vector text", 20⟩] ∧
    (⟨"x", "vector text", 20⟩ : RetDoc) ≠ ⟨"x", "keyword text", 10⟩ :=
  ⟨rfl, by decide⟩

/-- C3 (amended): when the vector result set and the keyword result set of one
Hybrid query both contain chunk id `x`, the merged output contains `x` exactly
once — but it carries a VECTOR-call document for `x` (the keyword entry is
overwritten; source-order dedup with last-write-wins, not score-weighted
fusion). -/
theorem hybrid_merge_dedup_vector_wins (K V : List RetDoc) (x : String)
    (_hK : ∃ d ∈ K, d._id = x) (hV : ∃ d ∈ V, d._id = x) :
    ∃ v, v ∈ V ∧ v._id = x ∧
      (hybrid_merge K V).filter (fun d => d._id = x) = [v] ∧
      (hybrid_merge K V).countP (fun d => d._id = x) = 1 := by
  obtain ⟨w, hw⟩ := Option.isSome_iff_exists.mp (last_doc_with_isSome x V hV)
  have hwmem := last_doc_with_mem x V w hw
  have hlast : last_doc_with (K ++ V) x = some w := by
    rw [last_doc_with_append, hw]
  have hlook : dlookup (build_docs_dict (K ++ V) []) x = some w := by
    rw [dlookup_build_docs_dict, hlast]
  have hnd : ((build_docs_dict (K ++ V) []).map Prod.fst).Nodup :=
    build_docs_dict_nodup (K ++ V) [] (by simp)
  have hinv : ∀ p ∈ build_docs_dict (K ++ V) [], (p : String × RetDoc).2._id = p.1 :=
    build_docs_dict_snd_id (K ++ V) [] (by simp)
  have hfil := values_filter_of_dlookup (build_docs_dict (K ++ V) []) hnd hinv x w hlook
  refine ⟨w, hwmem.1, hwmem.2, hfil, ?_⟩
  show ((build_docs_dict (K ++ V) []).map Prod.snd).countP (fun d => d._id = x) = 1
  rw [List.countP_eq_length_filter, hfil]
  rfl

/-- Witness for `hybrid_merge_dedup_vector_wins` on the counterexample pair. -/
theorem hybrid_merge_dedup_vector_wins_witness :
    (hybrid_merge [⟨"x", "keyword text", 10⟩] [⟨"x", "vector text", 20⟩]).filter
      (fun d => d._id = "x") = [⟨"x", "vector text", 20⟩] := by
  obtain ⟨v, hv, _, hfil, _⟩ :=
    hybrid_merge_dedup_vector_wins [⟨"x", "keyword text", 10⟩]
      [⟨"x", "vector text", 20⟩] "x"
      ⟨⟨"x", "keyword text", 10⟩, by simp, rfl⟩
      ⟨⟨"x", "vector text", 20⟩, by simp, rfl⟩
  obtain rfl : v = ⟨"x", "vector text", 20⟩ := by simpa using hv
  exact hfil

/-- C7 counterexample: an embedding failure IS raised past the retriever
boundary — `_retrieve` computes the query embedding before the protected
sub-queries, so even with both sub-queries healthy the call errors instead of
degrading. -/
theorem retrieve_hybrid_embed_error_escapes :
    retrieve_hybrid (.error "embedding backend down") (.ok []) (.ok [])
      = .error "embedding backend down" := rfl

/-- C7 (amended): once the query embedding succeeds, the two sub-queries fail
independently (each outcome enters the merge only through its own degraded
result) and no error escapes: a sub-query failure degrades the call to the
other sub-query's results, and if both fail the retriever returns `[]`.  An
embedding failure, which happens before the sub-queries, still propagates. -/
theorem retrieve_hybrid_degrades (e : List Int)
    (vres kres : Except String (List RetDoc)) :
    retrieve_hybrid (.ok e) vres kres
      = .ok (hybrid_merge (run_query kres) (run_query vres)) ∧
    (∀ ev ek, vres = .error ev → kres = .error ek →
      retrieve_hybrid (.ok e) vres kres = .ok []) ∧
    (∀ ev l, vres = .error ev → kres = .ok l → (l.map (fun d => d._id)).Nodup →
      retrieve_hybrid (.ok e) vres kres = .ok l) ∧
    (∀ ek l, kres = .error ek → vres = .ok l → (l.map (fun d => d._id)).Nodup →
      retrieve_hybrid (.ok e) vres kres = .ok l) := by
  refine ⟨rfl, ?_, ?_, ?_⟩
  · intro ev ek hv hk
    subst hv
    subst hk
    rfl
  · intro ev l hv hk hnd
    subst hv
    subst hk
    show Except.ok (hybrid_merge l []) = Except.ok l
    rw [(hybrid_merge_one_sided l hnd).1]
  · intro ek l hk hv hnd
    subst hv
    subst hk
    show Except.ok (hybrid_merge [] l) = Except.ok l
    rw [(hybrid_merge_one_sided l hnd).2]

/-- Witness for `retrieve_hybrid_degrades`: both-fail, vector-fail and
keyword-fail runs on concrete outcomes. -/
theorem retrieve_hybrid_degrades_witness :
    retrieve_hybrid (.ok [0]) (.error "vector index down") (.error "keyword index down")
      = .ok [] ∧
    retrieve_hybrid (.ok [0]) (.error "vector index down") (.ok [⟨"c1", "t", 3⟩])
      = .ok [⟨"c1", "t", 3⟩] ∧
    retrieve_hybrid (.ok [0]) (.ok [⟨"c2", "u", 5⟩]) (.error "keyword index down")
      = .ok [⟨"c2", "u", 5⟩] :=
  ⟨(retrieve_hybrid_degrades [0] (.error "vector index down")
      (.error "keyword index down")).2.1 "vector index down" "keyword index down" rfl rfl,
   (retrieve_hybrid_degrades [0] (.error "vector index down")
      (.ok [⟨"c1", "t", 3⟩])).2.2.1 "vector index down" [⟨"c1", "t", 3⟩] rfl rfl
      (by decide),
   (retrieve_hybrid_degrades [0] (.ok [⟨"c2", "u", 5⟩])
      (.error "keyword index down")).2.2.2 "keyword index down" [⟨"c2", "u", 5⟩] rfl rfl
      (by decide)⟩

end AssistantToolkit
